import Mathlib

/-!
Verification of the `enum_ids` procedural-macro crate.

The development shallowly embeds the crate's three modules:
* `src/attr.rs` — the `Attr` directive vocabulary, its `Display` keys and the
  `TryFrom<&str>` classifier;
* `src/context.rs` — the `Context` policy resolver (query methods
  `enum_name`, `getter_name`, `visibility`, `derive`, the display-mode flags)
  and its `Parse` implementation over the directive list;
* `src/lib.rs` — the `enum_ids` transformer: the projector match arms
  (`get_arm`), the companion enum, the conditional display / iterator
  implementations and `to_snake_case`.

Identifiers are modelled as `String`s; `Ident.new : String → Option String`
models `proc_macro2::Ident::new`, with `none` standing for the panic raised on
an invalid identifier (the development restricts attention to the ASCII
identifier character set, which is the charset the spec scopes the crate to).
Fallible parsing is `Except`; a `quote! {}` empty expansion is the empty item
list.

Note on missing declarations: `src/src/context.rs` pattern-matches
`attr::Attr::DisplayVariantSnake` and `src/src/lib.rs` calls
`Context::iterator`, but `src/src/attr.rs` declares neither an
`Attr::DisplayVariantSnake` nor an `Attr::Iterator` variant and
`Context::iterator` is defined nowhere under `src/`. The affected
declarations below are modelled from the spec and say so in their doc
comments; everything else is translated from the source files.
-/

namespace EnumIds

/-- The directive vocabulary of `src/attr.rs` (`enum Attr`).  The variants
`displayVariantSnake` and `iterator` are *Modelled from the spec*: they are
referenced by `context.rs` (match arm `attr::Attr::DisplayVariantSnake`) and
required by `lib.rs` (`cx.iterator()`), but `attr.rs` as shipped does not
declare them. -/
inductive Attr where
  | displayFromValue
  | display
  | displayVariant
  | displayVariantSnake
  | iterator
  | noDerive
  | derive (payload : String)
  | getter (payload : String)
  | enumName (payload : String)
  | notPublic
  | public
deriving DecidableEq

/-- `impl fmt::Display for Attr` in `src/attr.rs`: the canonical lexical key
of each directive.  The keys of `displayVariantSnake` and `iterator` are
Modelled from the spec (`display_variant_snake`, `iterator`); the other nine
arms are the source's match arms. -/
def Attr.to_string : Attr → String
  | .derive _ => "derive"
  | .getter _ => "getter"
  | .enumName _ => "name"
  | .display => "display"
  | .displayVariant => "display_variant"
  | .displayVariantSnake => "display_variant_snake"
  | .displayFromValue => "display_from_value"
  | .noDerive => "no_derive"
  | .notPublic => "not_public"
  | .public => "public"
  | .iterator => "iterator"

/-- `impl TryFrom<&str> for Attr` in `src/attr.rs`, verbatim: an if-else chain
comparing `value` with the `Display` key of each of the nine declared
variants; any other string is an error.  In particular the chain never tests
the keys `display_variant_snake` or `iterator`, so both are rejected as
unknown. -/
def Attr.try_from (value : String) : Except String Attr :=
  if (Attr.derive "").to_string == value then .ok (.derive "")
  else if (Attr.getter "").to_string == value then .ok (.getter "")
  else if (Attr.enumName "").to_string == value then .ok (.enumName "")
  else if Attr.noDerive.to_string == value then .ok .noDerive
  else if Attr.display.to_string == value then .ok .display
  else if Attr.displayVariant.to_string == value then .ok .displayVariant
  else if Attr.displayFromValue.to_string == value then .ok .displayFromValue
  else if Attr.notPublic.to_string == value then .ok .notPublic
  else if Attr.public.to_string == value then .ok .public
  else .error ("Unknown attribute \"" ++ value ++ "\"")

/-- `syn::Visibility`: `Public` (`pub`), `Restricted` (`pub(...)`) or
`Inherited` (no modifier, i.e. private). -/
inductive Visibility where
  | pub
  | restricted (path : String)
  | inherited
deriving DecidableEq

/-- A `syn::Attribute` of the source enum, reduced to what the crate
inspects: its path (`attr.path().is_ident("derive")`) and, for derive
attributes, the derived trait identifiers. -/
structure Attribute where
  path : String
  args : List String
deriving DecidableEq

/-- `proc_macro2::Ident::new`, restricted to the ASCII identifier charset:
`some s` when `s` is a valid identifier, `none` modelling the panic on an
empty or malformed string. -/
def Ident.new (s : String) : Option String :=
  match s.toList with
  | [] => none
  | c :: rest =>
    if (c.isAlpha || c == '_') && rest.all (fun x => x.isAlphanum || x == '_')
    then some s else none

/-- Rust `str::split(',')`: splits at every comma, keeping empty pieces
(splitting the empty string yields `[""]`). -/
def splitCommaGo : List Char → String → List String
  | [], acc => [acc]
  | c :: rest, acc =>
    if c == ',' then acc :: splitCommaGo rest ""
    else splitCommaGo rest (acc.push c)

/-- Rust `"…".split(',')` collected to a list. -/
def rustSplitComma (s : String) : List String := splitCommaGo s.toList ""

/-- Rust `char::is_whitespace`, restricted to the ASCII whitespace
characters. -/
def rustIsWhitespace (c : Char) : Bool :=
  c == ' ' || c == '\t' || c == '\n' || c == '\r'

/-- Rust `str::trim` on the ASCII fragment: drop leading and trailing
whitespace. -/
def rustTrim (s : String) : String :=
  ⟨((s.toList.dropWhile rustIsWhitespace).reverse.dropWhile
      rustIsWhitespace).reverse⟩

/-- `struct Context` of `src/context.rs`: the ordered sequence of parsed
directives. -/
structure Context where
  attrs : List Attr
deriving DecidableEq

/-- `Context::display_required`. -/
def Context.display_required (cx : Context) : Bool :=
  cx.attrs.any fun at1 => match at1 with | .display => true | _ => false

/-- `Context::display_variant`. -/
def Context.display_variant (cx : Context) : Bool :=
  cx.attrs.any fun at1 => match at1 with | .displayVariant => true | _ => false

/-- `Context::display_variant_snake`. -/
def Context.display_variant_snake (cx : Context) : Bool :=
  cx.attrs.any fun at1 =>
    match at1 with | .displayVariantSnake => true | _ => false

/-- `Context::display_from_value_required`. -/
def Context.display_from_value_required (cx : Context) : Bool :=
  cx.attrs.any fun at1 =>
    match at1 with | .displayFromValue => true | _ => false

/-- Modelled from the spec: `Context::iterator` is called by
`lib.rs::get_iterator` but defined nowhere under `src/`.  Per the spec,
"Enumeration mode: boolean query for whether an as-list helper is
requested", in the same `any`-over-directives style as the sibling
queries. -/
def Context.iterator (cx : Context) : Bool :=
  cx.attrs.any fun at1 => match at1 with | .iterator => true | _ => false

/-- The closure of `Context::enum_name`'s `find_map`: the payload of an
`EnumName` directive, `None` otherwise. -/
def enumNamePayload : Attr → Option String
  | .enumName name => some name
  | _ => none

/-- The closure of `Context::getter_name`'s `find_map`: the payload of a
`Getter` directive, `None` otherwise. -/
def getterPayload : Attr → Option String
  | .getter name => some name
  | _ => none

/-- `Context::enum_name`: the first `EnumName` payload, else `{src}Id`,
passed through `Ident::new` (which may panic, modelled by `none`). -/
def Context.enum_name (cx : Context) (src : String) : Option String :=
  Ident.new ((cx.attrs.findSome? enumNamePayload).getD (src ++ "Id"))

/-- `Context::getter_name`: the first `Getter` payload, else `"id"`, passed
through `Ident::new`. -/
def Context.getter_name (cx : Context) (src : String) : Option String :=
  Ident.new ((cx.attrs.findSome? getterPayload).getD "id")

/-- `Context::visibility`: `Public` wins, then `NotPublic` (yielding
`Inherited`, i.e. private), else the source's visibility is cloned. -/
def Context.visibility (cx : Context) (vis : Visibility) : Visibility :=
  if cx.attrs.any (fun at1 => match at1 with | .public => true | _ => false)
  then .pub
  else if cx.attrs.any
      (fun at1 => match at1 with | .notPublic => true | _ => false)
  then .inherited
  else vis

/-- The predicate of `matches!(at, attr::Attr::Derive(..))` used by
`Context::derive`'s `find`. -/
def isDeriveAttr : Attr → Bool
  | .derive _ => true
  | _ => false

/-- `Context::derive`: `NoDerive` suppresses everything; else the first
`Derive` payload is split at commas, trimmed and turned into idents (each
through `Ident::new`, panicking — `none` — on an invalid piece) forming a
fresh `#[derive(...)]`; else the source attributes whose path is `derive`
are inherited. -/
def Context.derive (cx : Context) (attrs : List Attribute) :
    Option (List Attribute) :=
  if cx.attrs.any (fun at1 => match at1 with | .noDerive => true | _ => false)
  then some []
  else
    match cx.attrs.find? isDeriveAttr with
    | some (.derive list) =>
      ((rustSplitComma list).mapM fun s => Ident.new (rustTrim s)).map
        fun traits => [⟨"derive", traits⟩]
    | _ => some (attrs.filter fun a => a.path == "derive")

/-- Rust `char::is_uppercase`, restricted to the ASCII range (the identifier
charset the spec scopes the crate to), where it coincides with an
`'A'..='Z'` test. -/
def rust_is_uppercase (c : Char) : Bool :=
  65 ≤ c.toNat && c.toNat ≤ 90

/-- Rust `char::to_ascii_lowercase`: add 32 to an ASCII uppercase letter,
leave every other character unchanged. -/
def to_ascii_lowercase (c : Char) : Char :=
  if rust_is_uppercase c then Char.ofNat (c.toNat + 32) else c

/-- The character loop of `to_snake_case` in `src/lib.rs`
(`get_display_variant_impl`): the first parameter is the enumeration index
`i`; an uppercase character is preceded by `'_'` unless `i == 0` and pushed
lowercased, any other character is pushed unchanged. -/
def snakeGo : Nat → List Char → List Char
  | _, [] => []
  | i, c :: rest =>
    if rust_is_uppercase c then
      (if i ≠ 0 then ['_', to_ascii_lowercase c] else [to_ascii_lowercase c])
        ++ snakeGo (i + 1) rest
    else c :: snakeGo (i + 1) rest

/-- `to_snake_case` of `src/lib.rs`. -/
def to_snake_case (name : String) : String := ⟨snakeGo 0 name.toList⟩

/-- The snake-case algorithm as worded by the spec (refinement reference for
claim C7): "for each uppercase character not at position 0, insert a
separator before it; lowercase every character" — i.e. every character is
lowercased, not only the uppercase ones. -/
def snakeSpecGo : Nat → List Char → List Char
  | _, [] => []
  | i, c :: rest =>
    (if rust_is_uppercase c && i ≠ 0 then ['_'] else [])
      ++ [to_ascii_lowercase c] ++ snakeSpecGo (i + 1) rest

/-- String-level wrapper of `snakeSpecGo` (the spec's wording of the
transform). -/
def snake_case_spec (name : String) : String := ⟨snakeSpecGo 0 name.toList⟩

/-- `s` lies in the ASCII range, where the embedding of the Rust character
primitives is exact. -/
def asciiOnly (s : String) : Bool := s.toList.all fun c => c.toNat ≤ 127

/-- A `syn::Path` as the parser inspects it: `get_ident()` yields an
identifier only for a single-segment path. -/
inductive PathE where
  | ident (s : String)
  | multi
deriving DecidableEq

/-- A `syn::Lit` as the parser inspects it: a string literal or anything
else. -/
inductive LitE where
  | str (s : String)
  | other
deriving DecidableEq

/-- The left side of an `Expr::Assign`: a path expression or any other
expression. -/
inductive AssignL where
  | path (p : PathE)
  | notPath
deriving DecidableEq

/-- The right side of an `Expr::Assign`: a literal expression or any other
expression. -/
inductive AssignR where
  | lit (l : LitE)
  | notLit
deriving DecidableEq

/-- One comma-separated entry of the attribute arguments, as classified by
`<Context as Parse>::parse`: an assignment, a bare path, or any other
expression shape. -/
inductive ExprE where
  | assign (left : AssignL) (right : AssignR)
  | path (p : PathE)
  | other
deriving DecidableEq

/-- The `syn::Error`s raised by `<Context as Parse>::parse`, with the
identifying data each error message carries (spans are dropped). -/
inductive ParseErr where
  | cannotParseAssign (ident msg : String)
  | wrongLevel (ident : String)
  | expectingKeyValue
  | cannotParsePath (ident msg : String)
  | cannotExtractIdent
  | malformedEntry
deriving DecidableEq

/-- The body of the `for` loop of `<Context as Parse>::parse` for one entry:
assignments must be `single-segment-path = string-literal`, the key is
classified by `Attr::try_from` and must be one of the value-carrying
directives; bare paths must be single-segment and classify to one of the
seven flag directives listed in the source's match arm; everything else is
malformed. -/
def parseEntry : ExprE → Except ParseErr Attr
  | .assign (.path (.ident k)) (.lit (.str v)) =>
    match Attr.try_from k with
    | .error e => .error (.cannotParseAssign k e)
    | .ok a =>
      match a with
      | .derive _ => .ok (.derive v)
      | .getter _ => .ok (.getter v)
      | .enumName _ => .ok (.enumName v)
      | _ => .error (.wrongLevel k)
  | .assign _ _ => .error .expectingKeyValue
  | .path (.ident k) =>
    match Attr.try_from k with
    | .error e => .error (.cannotParsePath k e)
    | .ok a =>
      match a with
      | .noDerive | .notPublic | .public | .display | .displayVariant
      | .displayVariantSnake | .displayFromValue => .ok a
      | _ => .error (.wrongLevel k)
  | .path .multi => .error .cannotExtractIdent
  | .other => .error .malformedEntry

/-- The `for` loop of `<Context as Parse>::parse`: entries are classified in
order, the first error aborts. -/
def parseList : List ExprE → Except ParseErr (List Attr)
  | [] => .ok []
  | e :: rest =>
    match parseEntry e with
    | .error err => .error err
    | .ok a =>
      match parseList rest with
      | .error err => .error err
      | .ok as1 => .ok (a :: as1)

/-- `<Context as Parse>::parse`: the parsed directives wrapped in a
`Context` (`Context::new`). -/
def parseContext (es : List ExprE) : Except ParseErr Context :=
  (parseList es).map Context.mk

/-- Payload shape of one source-enum variant (`syn::Fields`). -/
inductive FieldsShape where
  | unit
  | unnamed (n : Nat)
  | named (fieldNames : List String)
deriving DecidableEq

/-- One variant of the source enum: its identifier and its fields shape. -/
structure Variant where
  ident : String
  fields : FieldsShape
deriving DecidableEq

/-- The source `ItemEnum` as the transformer reads it: identifier,
visibility, outer attributes and ordered variants. -/
structure ItemEnum where
  ident : String
  vis : Visibility
  attrs : List Attribute
  variants : List Variant
deriving DecidableEq

/-- A match-arm pattern emitted by the transformer.  `unitP`, `unnamedRest`
and `namedRest` are the three `get_arm` patterns (`Src::V`, `Src::V(..)`,
`Src::V{..}`); `singleBind` is the `Src::V(v)` pattern of
`get_display_from_value_required`, which binds exactly one positional
value. -/
inductive Pat where
  | unitP (src v : String)
  | unnamedRest (src v : String)
  | namedRest (src v : String)
  | singleBind (src v : String)
deriving DecidableEq

/-- One projector match arm: a pattern and the `Dest::Variant` expression it
maps to.  The target carries no payload field because the emitted expression
`#dest_ident::#variant_ident` has none. -/
structure Arm where
  pat : Pat
  dest : String
  destVariant : String
deriving DecidableEq

/-- `get_arm` of `src/lib.rs`: the pattern discards the payload according to
the variant's shape, the target is always the bare same-named companion
case. -/
def get_arm (variant : Variant) (src dest : String) : Arm :=
  match variant.fields with
  | .unit => ⟨.unitP src variant.ident, dest, variant.ident⟩
  | .unnamed _ => ⟨.unnamedRest src variant.ident, dest, variant.ident⟩
  | .named _ => ⟨.namedRest src variant.ident, dest, variant.ident⟩

/-- The projector's full arm list:
`input.variants.iter().map(|v| get_arm(v, src, dest))`. -/
def projArms (vs : List Variant) (src dest : String) : List Arm :=
  vs.map fun v => get_arm v src dest

/-- A runtime payload of a source-enum value (parameterised by the type of
the field values, which the projector never inspects). -/
inductive Payload (α : Type) where
  | unit
  | unnamed (vals : List α)
  | named (fieldVals : List (String × α))

/-- A runtime value of the source enum: the enum's name, the variant's name
and the payload. -/
structure SourceValue (α : Type) where
  typeName : String
  variant : String
  payload : Payload α

/-- Rust pattern-matching semantics for the four emitted pattern shapes. -/
def patMatches {α : Type} (p : Pat) (v : SourceValue α) : Bool :=
  match p with
  | .unitP s w =>
    v.typeName == s && v.variant == w &&
      (match v.payload with | .unit => true | _ => false)
  | .unnamedRest s w =>
    v.typeName == s && v.variant == w &&
      (match v.payload with | .unnamed _ => true | _ => false)
  | .namedRest s w =>
    v.typeName == s && v.variant == w &&
      (match v.payload with | .named _ => true | _ => false)
  | .singleBind s w =>
    v.typeName == s && v.variant == w &&
      (match v.payload with
       | .unnamed vals => vals.length == 1
       | _ => false)

/-- Evaluation of the generated `match`: the first arm whose pattern matches
produces its (payload-free) target `Dest::Variant`. -/
def runMatch {α : Type} (arms : List Arm) (v : SourceValue α) :
    Option (String × String) :=
  (arms.find? fun a => patMatches a.pat v).map fun a => (a.dest, a.destVariant)

/-- The value's payload agrees with the declared shape of a variant (what
Rust's type system guarantees for a well-typed value of the enum). -/
def shapeAgrees {α : Type} : Payload α → FieldsShape → Bool
  | .unit, .unit => true
  | .unnamed vals, .unnamed n => vals.length == n
  | .named fvs, .named decl => fvs.map Prod.fst == decl
  | _, _ => false

/-- One generated item of the expansion (`quote!` blocks of `enum_ids`).  An
absent conditional block (`quote! {}`) is modelled by omitting the item. -/
inductive Item where
  | passthrough (input : ItemEnum)
  | getterImpl (src getterName destName : String) (arms : List Arm)
  | companionEnum (vis : Visibility) (derives : List Attribute)
      (name : String) (variants : List String)
  | srcAsVecImpl (typeName : String) (values : List String)
  | companionAsVecImpl (typeName : String) (values : List String)
  | displayImpl (typeName : String) (arms : List (String × String))
  | displayVariantImpl (typeName : String) (arms : List (String × String))
  | displayFromValueImpl (typeName : String) (arms : List Pat)
deriving DecidableEq

/-- `get_iterator` of `src/lib.rs`: when `cx.iterator()`, an
`impl #src { pub fn as_vec() -> Vec<#src> }` listing the *source* variants;
otherwise nothing. -/
def get_iterator (cx : Context) (input : ItemEnum) : List Item :=
  if cx.iterator then
    [.srcAsVecImpl input.ident (input.variants.map fun v => v.ident)]
  else []

/-- `get_display_impl` of `src/lib.rs`: when `cx.display_required()`, a
`Display` impl for the companion type whose arm for variant `v` renders
`stringify!(#src::#v)`; otherwise nothing. -/
def get_display_impl (cx : Context) (input : ItemEnum) (destIdent : String) :
    List Item :=
  if cx.display_required then
    [.displayImpl destIdent
      (input.variants.map fun v => (v.ident, input.ident ++ "::" ++ v.ident))]
  else []

/-- `get_display_variant_impl` of `src/lib.rs`: when `display_variant` or
`display_variant_snake` is requested, a `Display` impl whose arm for `v`
renders the bare variant name, snake-cased unless `display_variant` is set
(exact-case wins when both are present). -/
def get_display_variant_impl (cx : Context) (input : ItemEnum)
    (destIdent : String) : List Item :=
  if cx.display_variant || cx.display_variant_snake then
    [.displayVariantImpl destIdent
      (input.variants.map fun v =>
        (v.ident,
         if cx.display_variant then v.ident else to_snake_case v.ident))]
  else []

/-- `get_display_from_value_required` of `src/lib.rs`: when
`display_from_value` is requested, a `Display` impl on the *source* type
whose arm for every variant — whatever its declared shape — is the
single-binding pattern `#src::#variant(v) => v.to_string()`; otherwise
nothing. -/
def get_display_from_value_required (cx : Context) (input : ItemEnum) :
    List Item :=
  if cx.display_from_value_required then
    [.displayFromValueImpl input.ident
      (input.variants.map fun v => Pat.singleBind input.ident v.ident)]
  else []

/-- The item list spliced by the final `quote!` of `enum_ids`, in source
order: passthrough, projector impl, companion enum, conditional source
`as_vec`, unconditional companion `as_vec`, then the three conditional
display impls. -/
def expansion (cx : Context) (input : ItemEnum)
    (destIdent getterIdent : String) (deriveAttrs : List Attribute) :
    List Item :=
  [Item.passthrough input,
   Item.getterImpl input.ident getterIdent destIdent
     (projArms input.variants input.ident destIdent),
   Item.companionEnum (cx.visibility input.vis) deriveAttrs destIdent
     (input.variants.map fun v => v.ident)]
  ++ get_iterator cx input
  ++ [Item.companionAsVecImpl destIdent
        (input.variants.map fun v => v.ident)]
  ++ get_display_impl cx input destIdent
  ++ get_display_variant_impl cx input destIdent
  ++ get_display_from_value_required cx input

/-- `enum_ids` of `src/lib.rs`: resolve the companion name, getter name and
derive set (each of which can panic — `none`), then emit the expansion.  The
emission itself is total. -/
def enum_ids (cx : Context) (input : ItemEnum) : Option (List Item) :=
  match cx.enum_name input.ident, cx.getter_name input.ident,
      cx.derive input.attrs with
  | some destIdent, some getterIdent, some deriveAttrs =>
    some (expansion cx input destIdent getterIdent deriveAttrs)
  | _, _, _ => none

section Lemmas

/-- Membership characterisation of the `matches!(at, Attr::Public)` test. -/
lemma attr_any_public (l : List Attr) :
    (l.any fun at1 => match at1 with | .public => true | _ => false) = true ↔
      Attr.public ∈ l := by
  simp only [List.any_eq_true]
  constructor
  · rintro ⟨a, ha, h⟩
    cases a <;> simp_all
  · intro h
    exact ⟨_, h, rfl⟩

/-- Membership characterisation of the `matches!(at, Attr::NotPublic)`
test. -/
lemma attr_any_notPublic (l : List Attr) :
    (l.any fun at1 => match at1 with | .notPublic => true | _ => false)
      = true ↔ Attr.notPublic ∈ l := by
  simp only [List.any_eq_true]
  constructor
  · rintro ⟨a, ha, h⟩
    cases a <;> simp_all
  · intro h
    exact ⟨_, h, rfl⟩

/-- Membership characterisation of the `matches!(at, Attr::NoDerive)`
test. -/
lemma attr_any_noDerive (l : List Attr) :
    (l.any fun at1 => match at1 with | .noDerive => true | _ => false)
      = true ↔ Attr.noDerive ∈ l := by
  simp only [List.any_eq_true]
  constructor
  · rintro ⟨a, ha, h⟩
    cases a <;> simp_all
  · intro h
    exact ⟨_, h, rfl⟩

/-- Directives that are not `EnumName` contribute nothing to the
`enum_name` search. -/
def isEnumNameAttr : Attr → Bool
  | .enumName _ => true
  | _ => false

/-- Directives that are not `Getter` contribute nothing to the
`getter_name` search. -/
def isGetterAttr : Attr → Bool
  | .getter _ => true
  | _ => false

lemma enumName_extract_none {a : Attr} (h : isEnumNameAttr a = false) :
    enumNamePayload a = none := by
  cases a <;> simp_all [isEnumNameAttr, enumNamePayload]

lemma getter_extract_none {a : Attr} (h : isGetterAttr a = false) :
    getterPayload a = none := by
  cases a <;> simp_all [isGetterAttr, getterPayload]

lemma ident_new_verbatim (s m : String) (h : Ident.new s = some m) : m = s := by
  unfold Ident.new at h
  cases hl : s.toList with
  | nil => rw [hl] at h; simp at h
  | cons c rest =>
    rw [hl] at h
    split at h <;> simp_all

end Lemmas

/-- C2.  Directive-key parsing (`Attr::try_from` in `src/attr.rs`) accepts
the nine keys the if-else chain tests — six flag keys, three value keys —
and rejects everything else with an `Unknown attribute` error carrying the
unrecognised text.  Contrary to the claim, the keys `display_variant_snake`
and `iterator` are *not* in the chain and fail as unknown, although
`context.rs` pattern-matches `Attr::DisplayVariantSnake`, `lib.rs` calls
`cx.iterator()`, and the crate's own pass fixtures
(`tests/ui/pass/display_variant_snake.rs`, `tests/ui/pass/iterator.rs`) use
both keys: the evaluation below exhibits the code's behaviour at the two
failing keys. -/
theorem claim2_directive_vocabulary :
    Attr.try_from "no_derive" = .ok .noDerive ∧
    Attr.try_from "not_public" = .ok .notPublic ∧
    Attr.try_from "public" = .ok .public ∧
    Attr.try_from "display" = .ok .display ∧
    Attr.try_from "display_variant" = .ok .displayVariant ∧
    Attr.try_from "display_from_value" = .ok .displayFromValue ∧
    Attr.try_from "derive" = .ok (.derive "") ∧
    Attr.try_from "getter" = .ok (.getter "") ∧
    Attr.try_from "name" = .ok (.enumName "") ∧
    Attr.try_from "unknown" = .error "Unknown attribute \"unknown\"" ∧
    Attr.try_from "display_variant_snake"
      = .error "Unknown attribute \"display_variant_snake\"" ∧
    Attr.try_from "iterator" = .error "Unknown attribute \"iterator\"" := by
  exact ⟨rfl, rfl, rfl, rfl, rfl, rfl, rfl, rfl, rfl, rfl, rfl, rfl⟩

/-- C4.  `Context::visibility`: a `public` directive anywhere makes the
companion enum public regardless of the source visibility and of a
`not_public` directive also being present; otherwise `not_public` makes it
private (`Inherited`); otherwise the source's declared visibility is
returned unchanged. -/
theorem claim4_visibility (cx : Context) (vis : Visibility) :
    (Attr.public ∈ cx.attrs → cx.visibility vis = .pub) ∧
    (Attr.public ∉ cx.attrs → Attr.notPublic ∈ cx.attrs →
      cx.visibility vis = .inherited) ∧
    (Attr.public ∉ cx.attrs → Attr.notPublic ∉ cx.attrs →
      cx.visibility vis = vis) := by
  have hp := attr_any_public cx.attrs
  have hn := attr_any_notPublic cx.attrs
  unfold Context.visibility
  refine ⟨fun h => ?_, fun h h2 => ?_, fun h h2 => ?_⟩
  · rw [if_pos (hp.mpr h)]
  · rw [if_neg (fun hc => h (hp.mp hc)), if_pos (hn.mpr h2)]
  · rw [if_neg (fun hc => h (hp.mp hc)), if_neg (fun hc => h2 (hn.mp hc))]

/-- Witness for C4: with both `public` and `not_public` present and a
private source, the companion enum is public. -/
theorem claim4_visibility_witness :
    Context.visibility ⟨[Attr.public, Attr.notPublic]⟩ Visibility.inherited
      = Visibility.pub :=
  (claim4_visibility ⟨[Attr.public, Attr.notPublic]⟩ .inherited).1 (by decide)

/-- C5.  `Context::derive`: `no_derive` yields zero derive attributes even
when a `derive = …` override is also present; otherwise a first `derive`
override's comma-separated payload replaces inheritance entirely (the
result is payload-determined and independent of the source attributes);
otherwise exactly the source attributes whose path is `derive` are
inherited. -/
theorem claim5_derive (cx : Context) (attrs attrs2 : List Attribute)
    (l : String) (ts : List String) :
    (Attr.noDerive ∈ cx.attrs → cx.derive attrs = some []) ∧
    (Attr.noDerive ∉ cx.attrs →
      cx.attrs.find? isDeriveAttr = some (Attr.derive l) →
      ((rustSplitComma l).mapM fun s => Ident.new (rustTrim s)) = some ts →
      cx.derive attrs = some [⟨"derive", ts⟩] ∧
        cx.derive attrs = cx.derive attrs2) ∧
    (Attr.noDerive ∉ cx.attrs → cx.attrs.find? isDeriveAttr = none →
      cx.derive attrs = some (attrs.filter fun a => a.path == "derive")) := by
  have hn := attr_any_noDerive cx.attrs
  refine ⟨fun h => ?_, fun h hf hm => ?_, fun h hf => ?_⟩
  · unfold Context.derive
    rw [if_pos (hn.mpr h)]
  · have key : ∀ attrs0 : List Attribute,
        cx.derive attrs0 = some [⟨"derive", ts⟩] := by
      intro attrs0
      unfold Context.derive
      rw [if_neg (fun hc => h (hn.mp hc))]
      simp only [hf]
      rw [hm]
      rfl
    exact ⟨key attrs, (key attrs).trans (key attrs2).symm⟩
  · unfold Context.derive
    rw [if_neg (fun hc => h (hn.mp hc))]
    simp only [hf]

/-- Witness for C5: `no_derive` together with a `derive` override still
yields zero derive attributes, whatever the source attributes were. -/
theorem claim5_derive_witness :
    Context.derive ⟨[Attr.noDerive, Attr.derive "Debug"]⟩
      [⟨"derive", ["Clone"]⟩, ⟨"serde", []⟩] = some [] :=
  (claim5_derive ⟨[Attr.noDerive, Attr.derive "Debug"]⟩
    [⟨"derive", ["Clone"]⟩, ⟨"serde", []⟩] [] "" []).1 (by decide)

/-- C6.  `Context::enum_name` / `Context::getter_name`: the first `name`
override payload (directives before it being non-`name`) is used verbatim —
later duplicates are ignored — and absent an override the name is
`{src}Id`; likewise the first `getter` override, with default `id`.  The
payload is passed to `Ident::new`, which returns its argument verbatim
whenever it succeeds (final conjunct). -/
theorem claim6_names (attrs pre post : List Attr) (n src : String) :
    ((∀ a ∈ pre, isEnumNameAttr a = false) →
      Context.enum_name ⟨pre ++ Attr.enumName n :: post⟩ src = Ident.new n) ∧
    ((∀ a ∈ attrs, isEnumNameAttr a = false) →
      Context.enum_name ⟨attrs⟩ src = Ident.new (src ++ "Id")) ∧
    ((∀ a ∈ pre, isGetterAttr a = false) →
      Context.getter_name ⟨pre ++ Attr.getter n :: post⟩ src = Ident.new n) ∧
    ((∀ a ∈ attrs, isGetterAttr a = false) →
      Context.getter_name ⟨attrs⟩ src = Ident.new "id") ∧
    (∀ s m, Ident.new s = some m → m = s) := by
  refine ⟨fun h => ?_, fun h => ?_, fun h => ?_, fun h => ?_,
    ident_new_verbatim⟩
  · unfold Context.enum_name
    rw [List.findSome?_append]
    rw [List.findSome?_eq_none_iff.mpr fun a ha => enumName_extract_none (h a ha)]
    rw [List.findSome?_cons_of_isSome _ (by simp [enumNamePayload])]
    rfl
  · unfold Context.enum_name
    rw [List.findSome?_eq_none_iff.mpr fun a ha => enumName_extract_none (h a ha)]
    rfl
  · unfold Context.getter_name
    rw [List.findSome?_append]
    rw [List.findSome?_eq_none_iff.mpr fun a ha => getter_extract_none (h a ha)]
    rw [List.findSome?_cons_of_isSome _ (by simp [getterPayload])]
    rfl
  · unfold Context.getter_name
    rw [List.findSome?_eq_none_iff.mpr fun a ha => getter_extract_none (h a ha)]
    rfl

/-- Witness for C6: the first of two `name` overrides wins and is used
verbatim; with no overrides the defaults `KindId` and `id` come out. -/
theorem claim6_names_witness :
    Context.enum_name ⟨[Attr.display, Attr.enumName "Custom",
      Attr.enumName "Other"]⟩ "Kind" = Ident.new "Custom" ∧
    Context.getter_name ⟨[Attr.display]⟩ "Kind" = Ident.new "id" := by
  refine ⟨?_, ?_⟩
  · exact (claim6_names [] [Attr.display] [Attr.enumName "Other"] "Custom"
      "Kind").1 (by decide)
  · exact (claim6_names [Attr.display] [] [] "x" "Kind").2.2.2.1 (by decide)

/-- C10.  Directive payloads are not validated after parsing: the lists
`name = ""`, `getter = "not an ident"` and `derive = ""` all parse
successfully, yet the companion-name, projector-name and derive queries
respectively hit `Ident::new` with an invalid identifier and panic
(modelled by `none`) instead of returning an error. -/
theorem claim10_unvalidated_payloads :
    parseContext [ExprE.assign (.path (.ident "name")) (.lit (.str ""))]
      = .ok ⟨[Attr.enumName ""]⟩ ∧
    Context.enum_name ⟨[Attr.enumName ""]⟩ "Kind" = none ∧
    parseContext
        [ExprE.assign (.path (.ident "getter")) (.lit (.str "not an ident"))]
      = .ok ⟨[Attr.getter "not an ident"]⟩ ∧
    Context.getter_name ⟨[Attr.getter "not an ident"]⟩ "Kind" = none ∧
    parseContext [ExprE.assign (.path (.ident "derive")) (.lit (.str ""))]
      = .ok ⟨[Attr.derive ""]⟩ ∧
    Context.derive ⟨[Attr.derive ""]⟩ [] = none := by
  exact ⟨rfl, rfl, rfl, rfl, rfl, rfl⟩

section SnakeCase

lemma char_toNat_ofNat {m : Nat} (h : m < 55296) : (Char.ofNat m).toNat = m := by
  unfold Char.ofNat
  rw [dif_pos (Or.inl h)]
  simp [Char.ofNatAux, Char.toNat, UInt32.toNat]

lemma lower_eq_self {c : Char} (h : rust_is_uppercase c = false) :
    to_ascii_lowercase c = c := by
  simp [to_ascii_lowercase, h]

lemma lower_not_upper (c : Char) :
    rust_is_uppercase (to_ascii_lowercase c) = false := by
  by_cases hc : rust_is_uppercase c = true
  · simp only [to_ascii_lowercase, hc, if_true]
    simp only [rust_is_uppercase, Bool.and_eq_true, decide_eq_true_eq] at hc
    have hlt : c.toNat + 32 < 55296 := by omega
    simp only [rust_is_uppercase, char_toNat_ofNat hlt]
    simp only [Bool.and_eq_false_iff, decide_eq_false_iff_not]
    omega
  · simp only [Bool.not_eq_true] at hc
    rw [lower_eq_self hc]
    exact hc

lemma snakeGo_no_upper : ∀ (i : Nat) (l : List Char), ∀ c ∈ snakeGo i l,
    rust_is_uppercase c = false := by
  intro i l
  induction l generalizing i with
  | nil => intro c hc; simp [snakeGo] at hc
  | cons d rest ih =>
    intro c hc
    by_cases hd : rust_is_uppercase d = true
    · simp only [snakeGo, hd, if_true, List.mem_append] at hc
      rcases hc with hc | hc
      · by_cases hi : i = 0
        · simp [hi] at hc
          rw [hc]
          exact lower_not_upper d
        · simp [hi] at hc
          rcases hc with hc | hc
          · rw [hc]; decide
          · rw [hc]; exact lower_not_upper d
      · exact ih (i + 1) c hc
    · simp only [Bool.not_eq_true] at hd
      simp only [snakeGo, hd, Bool.false_eq_true, if_false, List.mem_cons]
        at hc
      rcases hc with hc | hc
      · rw [hc]; exact hd
      · exact ih (i + 1) c hc

lemma snakeGo_id_of_no_upper : ∀ (i : Nat) (l : List Char),
    (∀ c ∈ l, rust_is_uppercase c = false) → snakeGo i l = l := by
  intro i l
  induction l generalizing i with
  | nil => intro _; rfl
  | cons d rest ih =>
    intro h
    have hd : rust_is_uppercase d = false := h d (by simp)
    simp only [snakeGo, hd, Bool.false_eq_true, if_false]
    rw [ih (i + 1) fun c hc => h c (by simp [hc])]

lemma snakeGo_eq_spec : ∀ (i : Nat) (l : List Char),
    snakeGo i l = snakeSpecGo i l := by
  intro i l
  induction l generalizing i with
  | nil => rfl
  | cons d rest ih =>
    by_cases hd : rust_is_uppercase d = true
    · by_cases hi : i = 0 <;>
        simp [snakeGo, snakeSpecGo, hd, hi, ih 1, ih (i + 1)]
    · simp only [Bool.not_eq_true] at hd
      simp [snakeGo, snakeSpecGo, hd, lower_eq_self hd, ih (i + 1)]

end SnakeCase

/-- C7.  `to_snake_case` of `src/lib.rs`: it maps `FieldA ↦ field_a`,
`ThisIsFieldB ↦ this_is_field_b`, `C ↦ c`, `ABC ↦ a_b_c`; over the ASCII
identifier charset it coincides with the spec's formulation (separator
before every non-initial uppercase character, every character lowercased)
and it is idempotent. -/
theorem claim7_snake_case :
    to_snake_case "FieldA" = "field_a" ∧
    to_snake_case "ThisIsFieldB" = "this_is_field_b" ∧
    to_snake_case "C" = "c" ∧
    to_snake_case "ABC" = "a_b_c" ∧
    (∀ s : String, asciiOnly s = true →
      to_snake_case s = snake_case_spec s ∧
      to_snake_case (to_snake_case s) = to_snake_case s) := by
  refine ⟨by decide, by decide, by decide, by decide, fun s _ => ⟨?_, ?_⟩⟩
  · unfold to_snake_case snake_case_spec
    rw [snakeGo_eq_spec]
  · show (⟨snakeGo 0 (String.toList ⟨snakeGo 0 s.toList⟩)⟩ : String) = _
    have hl : String.toList ⟨snakeGo 0 s.toList⟩ = snakeGo 0 s.toList := rfl
    rw [hl, snakeGo_id_of_no_upper 0 _ (snakeGo_no_upper 0 s.toList)]
    rfl

/-- Witness for C7: the spec-coincidence and idempotence at the concrete
ASCII input `AbC`. -/
theorem claim7_snake_case_witness :
    asciiOnly "AbC" = true ∧
    to_snake_case "AbC" = snake_case_spec "AbC" ∧
    to_snake_case (to_snake_case "AbC") = to_snake_case "AbC" :=
  ⟨by decide, claim7_snake_case.2.2.2.2 "AbC" (by decide)⟩

section ParseLemmas

/-- The value-carrying directives (those `<Context as Parse>::parse` accepts
in `key = "value"` position). -/
def isValueLevel : Attr → Bool
  | .derive _ | .getter _ | .enumName _ => true
  | _ => false

/-- The flag directives listed by the bare-path match arm of
`<Context as Parse>::parse`. -/
def isFlagLevel : Attr → Bool
  | .noDerive | .notPublic | .public | .display | .displayVariant
  | .displayVariantSnake | .displayFromValue => true
  | _ => false

/-- A directive-list entry that parses: a recognised value key in
`key = "string"` form, or a recognised flag key in bare form. -/
def goodEntry : ExprE → Bool
  | .assign (.path (.ident k)) (.lit (.str _)) =>
    match Attr.try_from k with
    | .ok a => isValueLevel a
    | .error _ => false
  | .path (.ident k) =>
    match Attr.try_from k with
    | .ok a => isFlagLevel a
    | .error _ => false
  | _ => false

lemma parseEntry_ok_iff (e : ExprE) :
    (∃ a, parseEntry e = .ok a) ↔ goodEntry e = true := by
  cases e with
  | assign l r =>
    cases l with
    | path p =>
      cases p with
      | ident k =>
        cases r with
        | lit li =>
          cases li with
          | str v =>
            cases htf : Attr.try_from k with
            | error e1 => simp [parseEntry, goodEntry, htf]
            | ok a =>
              cases a <;> simp [parseEntry, goodEntry, htf, isValueLevel]
          | other => simp [parseEntry, goodEntry]
        | notLit => simp [parseEntry, goodEntry]
      | multi => simp [parseEntry, goodEntry]
    | notPath => simp [parseEntry, goodEntry]
  | path p =>
    cases p with
    | ident k =>
      cases htf : Attr.try_from k with
      | error e1 => simp [parseEntry, goodEntry, htf]
      | ok a => cases a <;> simp [parseEntry, goodEntry, htf, isFlagLevel]
    | multi => simp [parseEntry, goodEntry]
  | other => simp [parseEntry, goodEntry]

lemma parseList_ok_iff (es : List ExprE) :
    (∃ as1, parseList es = .ok as1) ↔ ∀ e ∈ es, goodEntry e = true := by
  induction es with
  | nil => simp [parseList]
  | cons e rest ih =>
    constructor
    · rintro ⟨as1, h⟩ e1 he1
      cases hpe : parseEntry e with
      | error err => simp [parseList, hpe] at h
      | ok a =>
        cases hpl : parseList rest with
        | error err => simp [parseList, hpe, hpl] at h
        | ok as2 =>
          rcases List.mem_cons.mp he1 with rfl | hmem
          · exact (parseEntry_ok_iff e1).mp ⟨a, hpe⟩
          · exact (ih.mp ⟨as2, hpl⟩) e1 hmem
    · intro h
      obtain ⟨a, hpe⟩ := (parseEntry_ok_iff e).mpr (h e (by simp))
      obtain ⟨as2, hpl⟩ := ih.mpr fun x hx => h x (by simp [hx])
      exact ⟨a :: as2, by simp [parseList, hpe, hpl]⟩

lemma goodEntry_false_of_err {e : ExprE} {err : ParseErr}
    (hpe : parseEntry e = .error err) : goodEntry e = false := by
  cases hg : goodEntry e
  · rfl
  · obtain ⟨a, ha⟩ := (parseEntry_ok_iff e).mpr hg
    rw [hpe] at ha
    simp at ha

lemma parseList_error (es : List ExprE) (err : ParseErr)
    (h : parseList es = .error err) :
    ∃ e ∈ es, goodEntry e = false ∧ parseEntry e = .error err := by
  induction es with
  | nil => simp [parseList] at h
  | cons e rest ih =>
    cases hpe : parseEntry e with
    | error err2 =>
      simp only [parseList, hpe] at h
      obtain rfl : err2 = err := by simpa using h
      exact ⟨e, by simp, goodEntry_false_of_err hpe, hpe⟩
    | ok a =>
      cases hpl : parseList rest with
      | error err2 =>
        simp only [parseList, hpe, hpl] at h
        obtain rfl : err2 = err := by simpa using h
        obtain ⟨e1, he1, hg, hpe1⟩ := ih hpl
        exact ⟨e1, by simp [he1], hg, hpe1⟩
      | ok as2 => simp [parseList, hpe, hpl] at h

end ParseLemmas

/-- C8.  `<Context as Parse>::parse` succeeds exactly when every entry is a
recognised value key in `key = "string-literal"` form or a recognised flag
key in bare form — so a well-formed list of recognised keys in the correct
forms always parses — and when it fails, the error is the classification of
an offending entry of the list (unknown key, wrong syntactic level for a
recognised key, or malformed entry, each constructor carrying the offending
key where the source message does).  An error means no `Context` is
produced, so `enum_ids` — which consumes the parsed `Context` — emits
nothing for that source type. -/
theorem claim8_parse_errors (es : List ExprE) :
    ((∃ cx, parseContext es = .ok cx) ↔ ∀ e ∈ es, goodEntry e = true) ∧
    (∀ err, parseContext es = .error err →
      ∃ e ∈ es, goodEntry e = false ∧ parseEntry e = .error err) := by
  constructor
  · constructor
    · rintro ⟨cx, h⟩
      unfold parseContext at h
      cases hpl : parseList es with
      | error err => rw [hpl] at h; simp [Except.map] at h
      | ok as1 => exact (parseList_ok_iff es).mp ⟨as1, hpl⟩
    · intro h
      obtain ⟨as1, hpl⟩ := (parseList_ok_iff es).mpr h
      exact ⟨⟨as1⟩, by simp [parseContext, hpl, Except.map]⟩
  · intro err h
    unfold parseContext at h
    cases hpl : parseList es with
    | error err2 =>
      rw [hpl] at h
      obtain rfl : err2 = err := by simpa [Except.map] using h
      exact parseList_error es _ hpl
    | ok as1 => rw [hpl] at h; simp [Except.map] at h

/-- Witness for C8: a well-formed list — a bare flag key and a value key
with a string payload — parses successfully. -/
theorem claim8_parse_errors_witness :
    ∃ cx, parseContext [ExprE.path (.ident "display"),
      ExprE.assign (.path (.ident "getter")) (.lit (.str "get_id"))]
        = .ok cx :=
  (claim8_parse_errors _).1.mpr (by decide)

section TransformLemmas

lemma get_arm_dest (v : Variant) (src dest : String) :
    (get_arm v src dest).dest = dest := by
  cases hf : v.fields <;> simp [get_arm, hf]

lemma get_arm_destVariant (v : Variant) (src dest : String) :
    (get_arm v src dest).destVariant = v.ident := by
  cases hf : v.fields <;> simp [get_arm, hf]

lemma projArms_destVariants (vs : List Variant) (src dest : String) :
    (projArms vs src dest).map (fun a => a.destVariant)
      = vs.map fun v => v.ident := by
  induction vs with
  | nil => rfl
  | cons v rest ih =>
    simp only [projArms, List.map_cons] at ih ⊢
    rw [get_arm_destVariant, ih]

lemma arm_matches_self {α : Type} (w : Variant) (src dest : String)
    (v : SourceValue α) (ht : v.typeName = src) (hv : v.variant = w.ident)
    (hs : shapeAgrees v.payload w.fields = true) :
    patMatches (get_arm w src dest).pat v = true := by
  cases hw : w.fields <;> cases hp : v.payload <;>
    simp_all [get_arm, patMatches, shapeAgrees]

lemma arm_no_match {α : Type} (u : Variant) (src dest : String)
    (v : SourceValue α) (hne : v.variant ≠ u.ident) :
    patMatches (get_arm u src dest).pat v = false := by
  have hb : (v.variant == u.ident) = false := by
    simp [hne]
  cases hu : u.fields <;> simp [get_arm, patMatches, hu, hb]

lemma runMatch_proj {α : Type} (vs : List Variant) (src dest : String)
    (v : SourceValue α) : ∀ w : Variant,
    (vs.map fun x => x.ident).Nodup → w ∈ vs → v.typeName = src →
    v.variant = w.ident → shapeAgrees v.payload w.fields = true →
    runMatch (projArms vs src dest) v = some (dest, w.ident) := by
  induction vs with
  | nil => intro w _ hw; simp at hw
  | cons u rest ih =>
    intro w hnd hw ht hv hs
    simp only [List.map_cons, List.nodup_cons] at hnd
    rcases List.mem_cons.mp hw with rfl | hmem
    · unfold runMatch projArms
      simp only [List.map_cons]
      have hpm := arm_matches_self w src dest v ht hv hs
      simp [List.find?_cons, hpm, get_arm_dest, get_arm_destVariant]
    · have hne : v.variant ≠ u.ident := by
        rw [hv]
        intro hc
        exact hnd.1 (hc ▸ List.mem_map_of_mem (fun x => x.ident) hmem)
      have hstep : runMatch (projArms (u :: rest) src dest) v
          = runMatch (projArms rest src dest) v := by
        unfold runMatch projArms
        simp [List.find?_cons, arm_no_match u src dest v hne]
      rw [hstep]
      exact ih w hnd.2 hmem ht hv hs

end TransformLemmas

/-- The three-variant source enum of the crate's own fixtures
(`tests/ui/pass/default.rs`): one positional-payload case, one
named-payload case and one unit case. -/
def kindEnum : ItemEnum :=
  ⟨"Kind", .pub, [], [⟨"A", .unnamed 1⟩, ⟨"B", .named ["value"]⟩,
    ⟨"C", .unit⟩]⟩

/-- C1.  The expansion contains the projector impl (with getter name and
arms `get_arm`) and the companion enum whose case list is exactly the
source case names in source order carrying no payload; the arm targets are
the same-named companion cases, one per source case in order; and running
the generated match on any well-typed source value — whatever the shape of
its variant — yields the same-named companion case, payload discarded. -/
theorem claim1_projector (cx : Context) (input : ItemEnum)
    (items : List Item) (d : String) (α : Type) (v : SourceValue α)
    (w : Variant) :
    enum_ids cx input = some items → cx.enum_name input.ident = some d →
    (∃ g, cx.getter_name input.ident = some g ∧
      Item.getterImpl input.ident g d
        (projArms input.variants input.ident d) ∈ items) ∧
    (∃ vis der, Item.companionEnum vis der d
      (input.variants.map fun x => x.ident) ∈ items) ∧
    ((projArms input.variants input.ident d).map (fun a => a.destVariant)
      = input.variants.map fun x => x.ident) ∧
    ((input.variants.map fun x => x.ident).Nodup → w ∈ input.variants →
      v.typeName = input.ident → v.variant = w.ident →
      shapeAgrees v.payload w.fields = true →
      runMatch (projArms input.variants input.ident d) v
        = some (d, w.ident)) := by
  intro h hd
  cases hg : cx.getter_name input.ident with
  | none => simp [enum_ids, hd, hg] at h
  | some g =>
    cases hder : cx.derive input.attrs with
    | none => simp [enum_ids, hd, hg, hder] at h
    | some das =>
      simp only [enum_ids, hd, hg, hder, Option.some.injEq] at h
      subst h
      refine ⟨⟨g, rfl, by simp [expansion]⟩,
        ⟨cx.visibility input.vis, das, by simp [expansion]⟩,
        projArms_destVariants _ _ _, fun hnd hw ht hv hs =>
          runMatch_proj _ _ _ _ w hnd hw ht hv hs⟩

/-- Witness for C1 at the fixture enum: the expansion is computed and the
match maps the named-payload value `Kind::B { value: 0 }` to
`KindId::B`. -/
theorem claim1_projector_witness :
    enum_ids ⟨[]⟩ kindEnum
      = some (expansion ⟨[]⟩ kindEnum "KindId" "id" []) ∧
    runMatch (projArms kindEnum.variants "Kind" "KindId")
      (⟨"Kind", "B", Payload.named [("value", (0 : Nat))]⟩ : SourceValue Nat)
      = some ("KindId", "B") := by
  refine ⟨rfl, ?_⟩
  exact (claim1_projector ⟨[]⟩ kindEnum
    (expansion ⟨[]⟩ kindEnum "KindId" "id" []) "KindId" Nat
    ⟨"Kind", "B", Payload.named [("value", 0)]⟩ ⟨"B", .named ["value"]⟩
    rfl rfl).2.2.2 (by decide) (by decide) rfl rfl (by decide)

/-- C3 counterexample: with the empty (successfully parsed) directive list
the iterator flag is absent, yet the companion-type as-list helper
(`impl KindId { pub fn as_vec() }`, lines 104–108 of `src/lib.rs`) is
emitted unconditionally — refuting "emitted iff the iterator directive is
present". -/
theorem claim3_counterexample :
    parseContext [] = .ok ⟨[]⟩ ∧
    enum_ids ⟨[]⟩ kindEnum
      = some (expansion ⟨[]⟩ kindEnum "KindId" "id" []) ∧
    ¬(Item.companionAsVecImpl "KindId" ["A", "B", "C"]
        ∈ expansion ⟨[]⟩ kindEnum "KindId" "id" [] ↔
      Context.iterator ⟨[]⟩ = true) := by
  exact ⟨rfl, rfl, by decide⟩

/-- C3 as amended: the *companion-type* as-list helper is emitted
unconditionally, while the iterator directive governs an additional as-list
helper on the *source* type (`get_iterator`), emitted iff the flag is
present. -/
theorem claim3_iterator_amended (cx : Context) (input : ItemEnum)
    (items : List Item) (d : String) :
    enum_ids cx input = some items → cx.enum_name input.ident = some d →
    (Item.companionAsVecImpl d (input.variants.map fun x => x.ident)
      ∈ items) ∧
    (Item.srcAsVecImpl input.ident (input.variants.map fun x => x.ident)
      ∈ items ↔ cx.iterator = true) := by
  intro h hd
  cases hg : cx.getter_name input.ident with
  | none => simp [enum_ids, hd, hg] at h
  | some g =>
    cases hder : cx.derive input.attrs with
    | none => simp [enum_ids, hd, hg, hder] at h
    | some das =>
      simp only [enum_ids, hd, hg, hder, Option.some.injEq] at h
      subst h
      refine ⟨by simp [expansion], ?_⟩
      cases hit : cx.iterator <;>
        cases hd1 : cx.display_required <;>
        cases hdv : cx.display_variant <;>
        cases hdvs : cx.display_variant_snake <;>
        cases hd3 : cx.display_from_value_required <;>
        simp [expansion, get_iterator, get_display_impl,
          get_display_variant_impl, get_display_from_value_required,
          hit, hd1, hdv, hdvs, hd3]

/-- Witness for C3 (amended): with the iterator flag present the source
`as_vec` impl is in the expansion, and the companion `as_vec` is there as
always. -/
theorem claim3_iterator_amended_witness :
    Item.companionAsVecImpl "KindId" ["A", "B", "C"]
      ∈ expansion ⟨[Attr.iterator]⟩ kindEnum "KindId" "id" [] ∧
    (Item.srcAsVecImpl "Kind" ["A", "B", "C"]
      ∈ expansion ⟨[Attr.iterator]⟩ kindEnum "KindId" "id" [] ↔
      Context.iterator ⟨[Attr.iterator]⟩ = true) :=
  claim3_iterator_amended ⟨[Attr.iterator]⟩ kindEnum
    (expansion ⟨[Attr.iterator]⟩ kindEnum "KindId" "id" []) "KindId" rfl rfl

/-- C9.  Once the three resolution queries have succeeded, `enum_ids`
always emits (the emission is a total function); and with
`display_from_value` requested the display impl on the source type carries
a single-positional-binding arm `Src::V(v) => v.to_string()` for *every*
case, with no check that the case has exactly one positional payload slot
(the arm list is a plain map over the variants that never inspects
`fields`). -/
theorem claim9_transform_total (cx : Context) (input : ItemEnum)
    (d g : String) (das : List Attribute) :
    cx.enum_name input.ident = some d → cx.getter_name input.ident = some g →
    cx.derive input.attrs = some das →
    ∃ items, enum_ids cx input = some items ∧
      (cx.display_from_value_required = true →
        Item.displayFromValueImpl input.ident
          (input.variants.map fun v => Pat.singleBind input.ident v.ident)
          ∈ items) := by
  intro h1 h2 h3
  refine ⟨expansion cx input d g das, by simp [enum_ids, h1, h2, h3],
    fun hdfv => ?_⟩
  simp [expansion, get_display_from_value_required, hdfv]

/-- Witness for C9 at the fixture enum, whose cases include a unit case and
a named-payload case: the delegating single-binding arm is nevertheless
emitted for all three cases. -/
theorem claim9_transform_total_witness :
    ∃ items, enum_ids ⟨[Attr.displayFromValue]⟩ kindEnum = some items ∧
      Item.displayFromValueImpl "Kind"
        [Pat.singleBind "Kind" "A", Pat.singleBind "Kind" "B",
         Pat.singleBind "Kind" "C"] ∈ items := by
  obtain ⟨items, hi, hm⟩ := claim9_transform_total ⟨[Attr.displayFromValue]⟩
    kindEnum "KindId" "id" [] rfl rfl rfl
  exact ⟨items, hi, hm rfl⟩

end EnumIds
